import Mathlib

/-!
Shallow embedding of `src/strategy/deduction.rs` of the sudoku repository:
the `Deduction` record type, its `strategy()` classification, and the
`Deductions` ledger with `len`, `get` and the borrowing iterator.

Conventions of the embedding:
* Rust `Vec<T>` and slices become `List`.
* A Rust panic (`unreachable!`, an out of bounds `conflicts[0]` index, a bad
  slice range `&eliminated[start..end]`) becomes an `Except.error` carrying
  which kind of panic it is, so the spec's distinction between the
  `unreachable!` branches and the indexing panic stays visible.
* The board and bitset collaborators (`Candidate`, `House`, `Position`,
  `Set<T>`) are not under `src/`; they are modelled from the spec as opaque
  value types with the operations the spec lists (length, overlap test,
  house categorisation, cell-to-position projection).
-/

/-- Modelled from the spec: `Candidate` is an external entity pairing a cell
identity with a digit value; the cell is an index on the 9 by 9 grid. -/
structure Candidate where
  cell : Nat
  digit : Nat
  deriving DecidableEq

/-- Modelled from the spec: the category of a house — a row, a column, or a
block — as returned by `House::categorize`. -/
inductive HouseType where
  | Row (index : Nat)
  | Col (index : Nat)
  | Block (index : Nat)
  deriving DecidableEq

/-- Modelled from the spec: an opaque house reference from the board
collaborator, numbered with rows first, then columns, then blocks. -/
abbrev House := Nat

/-- Modelled from the spec: `house.categorize()` tells whether the house is a
row, a column, or a block. -/
def House.categorize (h : House) : HouseType :=
  if h < 9 then HouseType.Row h
  else if h < 18 then HouseType.Col (h - 9)
  else HouseType.Block (h - 18)

/-- Modelled from the spec: `cell.row_pos()`, the index of a cell within its
row (its column offset). -/
def Cell.row_pos (c : Nat) : Nat := c % 9

/-- Modelled from the spec: `cell.col_pos()`, the index of a cell within its
column (its row offset). -/
def Cell.col_pos (c : Nat) : Nat := c / 9

/-- Modelled from the spec: `cell.block_pos()`, the index of a cell within its
3 by 3 block. -/
def Cell.block_pos (c : Nat) : Nat := (c / 9 % 3) * 3 + c % 9 % 3

/-- Modelled from the spec: the overlap test of the external bitset capability
`Set<T>`: do the two sets share an element. -/
def setOverlaps (a b : Finset Nat) : Bool := decide (a ∩ b).Nonempty

/-- Modelled from the spec: `pos.as_set()`, the singleton bitset holding one
position. -/
def posAsSet (p : Nat) : Finset Nat := {p}

/-- Modelled from the spec: the named strategy tags this core can report
(`super::Strategy`). -/
inductive Strategy where
  | NakedSingles
  | HiddenSingles
  | LockedCandidates
  | NakedPairs
  | NakedTriples
  | NakedQuads
  | HiddenPairs
  | HiddenTriples
  | HiddenQuads
  | XWing
  | Swordfish
  | Jellyfish
  deriving DecidableEq

/-- A fatal failure of the embedded Rust code: an out of bounds element index
(`conflicts[0]` on an empty slice), a slicing with a bad range
(`&eliminated[start..end]`), or control flow reaching a branch the source
marks `unreachable!`. -/
inductive PanicKind where
  | indexOutOfBounds
  | sliceOutOfBounds
  | unreachableCode
  deriving DecidableEq

deriving instance DecidableEq for Except

/-- `type DeductionRange = std::ops::Range<usize>`: the half open index range
`[start, stop)` a stored record uses to name its conflicts inside
`eliminated_entries`. Rust's field `end` is called `stop` here because `end`
is a Lean keyword. -/
structure DeductionRange where
  start : Nat
  stop : Nat
  deriving DecidableEq

/-- `enum Deduction<T>`: result of a single, successful strategy application,
generic over the representation `T` of its conflicts. Six constructors: the
five live variants and the hidden `__NonExhaustive` sentinel. -/
inductive Deduction (T : Type) where
  | NakedSingles (candidate : Candidate)
  | HiddenSingles (candidate : Candidate) (house_type : HouseType)
  | LockedCandidates (digit : Nat) (miniline : Nat) ( is_pointing : Bool) (conflicts : T)
  | Subsets (house : House) (positions : Finset Nat) (digits : Finset Nat) (conflicts : T)
  | BasicFish (digit : Nat) (lines : Finset Nat) (positions : Finset Nat) (conflicts : T)
  | __NonExhaustive
  deriving DecidableEq

/-- The `let conflict_pos = match house.categorize() { ... }` step of
`Deduction::strategy`: project the first conflicting candidate's cell to a
row, column, or block relative position according to the house's category. -/
def conflictPos (house : House) (cell : Nat) : Nat :=
  match House.categorize house with
  | HouseType.Row _ => Cell.row_pos cell
  | HouseType.Col _ => Cell.col_pos cell
  | HouseType.Block _ => Cell.block_pos cell

/-- `Deduction::strategy` on a fully materialized record: the type of strategy
that was used to make this deduction, rederived from the record's shape.
`unreachable!` branches and the `conflicts[0]` indexing panic are errors. -/
def Deduction.strategy : Deduction (List Candidate) → Except PanicKind Strategy
  | Deduction.NakedSingles _ => Except.ok Strategy.NakedSingles
  | Deduction.HiddenSingles _ _ => Except.ok Strategy.HiddenSingles
  | Deduction.LockedCandidates _ _ _ _ => Except.ok Strategy.LockedCandidates
  | Deduction.BasicFish _ _ positions _ =>
    match positions.card with
    | 2 => Except.ok Strategy.XWing
    | 3 => Except.ok Strategy.Swordfish
    | 4 => Except.ok Strategy.Jellyfish
    | _ => Except.error PanicKind.unreachableCode
  | Deduction.Subsets house positions _ conflicts =>
    match conflicts with
    | [] => Except.error PanicKind.indexOutOfBounds
    | conflict :: _ =>
      let conflict_pos := conflictPos house conflict.cell
      let is_hidden_subset := setOverlaps (posAsSet conflict_pos) positions
      match is_hidden_subset, positions.card with
      | false, 2 => Except.ok Strategy.NakedPairs
      | false, 3 => Except.ok Strategy.NakedTriples
      | false, 4 => Except.ok Strategy.NakedQuads
      | true, 2 => Except.ok Strategy.HiddenPairs
      | true, 3 => Except.ok Strategy.HiddenTriples
      | true, 4 => Except.ok Strategy.HiddenQuads
      | _, _ => Except.error PanicKind.unreachableCode
  | Deduction.__NonExhaustive => Except.error PanicKind.unreachableCode

/-- Rust slice indexing by a range, `&eliminated[start..stop]`: the sublist of
the elements with index in `[start, stop)`; a panic when `start > stop` or
`stop` exceeds the length. -/
def sliceRange (l : List Candidate) (r : DeductionRange) : Except PanicKind (List Candidate) :=
  if r.start ≤ r.stop ∧ r.stop ≤ l.length then
    Except.ok ((l.drop r.start).take (r.stop - r.start))
  else Except.error PanicKind.sliceOutOfBounds

/-- `Deduction::with_slices`: replace the index ranges of the internal
representation with slices of `eliminated` for the external API. -/
def Deduction.with_slices :
    Deduction DeductionRange → List Candidate → Except PanicKind (Deduction (List Candidate))
  | Deduction.NakedSingles c, _ => Except.ok (Deduction.NakedSingles c)
  | Deduction.HiddenSingles c h, _ => Except.ok (Deduction.HiddenSingles c h)
  | Deduction.LockedCandidates digit miniline pointing conflicts, eliminated =>
    match sliceRange eliminated conflicts with
    | Except.ok s => Except.ok (Deduction.LockedCandidates digit miniline pointing s)
    | Except.error e => Except.error e
  | Deduction.Subsets house positions digits conflicts, eliminated =>
    match sliceRange eliminated conflicts with
    | Except.ok s => Except.ok (Deduction.Subsets house positions digits s)
    | Except.error e => Except.error e
  | Deduction.BasicFish digit lines positions conflicts, eliminated =>
    match sliceRange eliminated conflicts with
    | Except.ok s => Except.ok (Deduction.BasicFish digit lines positions s)
    | Except.error e => Except.error e
  | Deduction.__NonExhaustive, _ => Except.ok Deduction.__NonExhaustive

/-- `struct Deductions`: the append-only ledger of deductions made to solve or
partially solve the sudoku, with the flat candidate buffers. -/
structure Deductions where
  deductions : List (Deduction DeductionRange)
  deduced_entries : List Candidate
  eliminated_entries : List Candidate
  deriving DecidableEq

/-- `Deductions::len`: the number of deductions. -/
def Deductions.len (ld : Deductions) : Nat := ld.deductions.length

/-- `Deductions::get`: the `index`th deduction, if it exists, with its index
range resolved against `eliminated_entries`. The outer `Option` is Rust's
return value (`none` for an out of bounds index); the inner `Except` records
whether the range resolution panics. -/
def Deductions.get (ld : Deductions) (index : Nat) :
    Option (Except PanicKind (Deduction (List Candidate))) :=
  (ld.deductions[index]?).map (fun d => d.with_slices ld.eliminated_entries)

/-- `struct Iter`: the borrowing iterator over a `Deductions` ledger: the not
yet visited records and the shared `eliminated_entries` buffer. -/
structure Iter where
  deductions : List (Deduction DeductionRange)
  eliminated_entries : List Candidate
  deriving DecidableEq

/-- `Iter::next`: materialize the next stored record, if any, and advance. -/
def Iter.next : Iter → Option (Except PanicKind (Deduction (List Candidate))) × Iter
  | ⟨[], el⟩ => (none, ⟨[], el⟩)
  | ⟨d :: ds, el⟩ => (some (d.with_slices el), ⟨ds, el⟩)

/-- `Deductions::iter`: an iterator over the deductions. -/
def Deductions.iter (ld : Deductions) : Iter :=
  ⟨ld.deductions, ld.eliminated_entries⟩

set_option linter.unusedVariables false in
/-- Repeatedly step the iterator with `Iter.next` until it is exhausted,
collecting every item it yields. -/
def Iter.toList (it : Iter) : List (Except PanicKind (Deduction (List Candidate))) :=
  match h : it.next with
  | (none, _) => []
  | (some x, it2) => x :: it2.toList
termination_by it.deductions.length
decreasing_by
  cases it with
  | mk ds el =>
    cases ds with
    | nil => simp [Iter.next] at h
    | cons d ds =>
      simp [Iter.next] at h
      simp [← h.2]

/-- The index range a stored record uses for its conflicts, when the variant
has a conflicts field. -/
def Deduction.conflictRange : Deduction DeductionRange → Option DeductionRange
  | Deduction.LockedCandidates _ _ _ r => some r
  | Deduction.Subsets _ _ _ r => some r
  | Deduction.BasicFish _ _ _ r => some r
  | _ => none

/-- The conflicts slice of a materialized record, when the variant has a
conflicts field. -/
def Deduction.conflictsOf : Deduction (List Candidate) → Option (List Candidate)
  | Deduction.LockedCandidates _ _ _ s => some s
  | Deduction.Subsets _ _ _ s => some s
  | Deduction.BasicFish _ _ _ s => some s
  | _ => none

/-- A stored record's range is within a buffer of length `len` (trivially so
for the variants without a conflicts field). -/
def Deduction.rangeOk (d : Deduction DeductionRange) (len : Nat) : Bool :=
  match d.conflictRange with
  | none => true
  | some r => decide (r.start ≤ r.stop) && decide (r.stop ≤ len)

/-- The ledger invariant the append path maintains (spec section 4.2): every
stored index range is a valid range into `eliminated_entries`. -/
def Deductions.WellFormed (ld : Deductions) : Prop :=
  ∀ d ∈ ld.deductions, d.rangeOk ld.eliminated_entries.length = true

instance (ld : Deductions) : Decidable ld.WellFormed := by
  unfold Deductions.WellFormed
  infer_instance

/-! ## Helper lemmas -/

/-- A singleton bitset overlaps a set exactly when its element is a member. -/
theorem setOverlaps_posAsSet (p : Nat) (s : Finset Nat) :
    setOverlaps (posAsSet p) s = true ↔ p ∈ s := by
  by_cases h : p ∈ s
  · simp [setOverlaps, posAsSet, Finset.singleton_inter_of_mem h, h]
  · simp [setOverlaps, posAsSet, Finset.singleton_inter_of_not_mem h, h]

/-- Materialization succeeds on every record whose range fits the buffer. -/
theorem with_slices_ok_of_rangeOk (d : Deduction DeductionRange) (el : List Candidate)
    (h : d.rangeOk el.length = true) : ∃ m, d.with_slices el = Except.ok m := by
  cases d with
  | NakedSingles c => exact ⟨_, rfl⟩
  | HiddenSingles c ht => exact ⟨_, rfl⟩
  | LockedCandidates digit miniline pointing r =>
    simp [Deduction.rangeOk, Deduction.conflictRange] at h
    simp [Deduction.with_slices, sliceRange, h.1, h.2]
  | Subsets house positions digits r =>
    simp [Deduction.rangeOk, Deduction.conflictRange] at h
    simp [Deduction.with_slices, sliceRange, h.1, h.2]
  | BasicFish digit lines positions r =>
    simp [Deduction.rangeOk, Deduction.conflictRange] at h
    simp [Deduction.with_slices, sliceRange, h.1, h.2]
  | __NonExhaustive => exact ⟨_, rfl⟩

/-- Running the iterator to exhaustion materializes each stored record in
storage order. -/
theorem Iter.toList_eq_map (l : List (Deduction DeductionRange)) (el : List Candidate) :
    Iter.toList ⟨l, el⟩ = l.map (fun d => d.with_slices el) := by
  induction l with
  | nil => rw [Iter.toList]; rfl
  | cons d ds ih =>
    rw [Iter.toList]
    simp only [Iter.next, List.map]
    rw [ih]

/-- Evaluation of `strategy` on a `Subsets` record with non-empty conflicts:
the result is the match on the overlap bit and the cardinality from the
source. -/
theorem strategy_subsets_cons (house : House) (positions digits : Finset Nat)
    (c : Candidate) (cs : List Candidate) :
    Deduction.strategy (Deduction.Subsets house positions digits (c :: cs)) =
      match setOverlaps (posAsSet (conflictPos house c.cell)) positions, positions.card with
      | false, 2 => Except.ok Strategy.NakedPairs
      | false, 3 => Except.ok Strategy.NakedTriples
      | false, 4 => Except.ok Strategy.NakedQuads
      | true, 2 => Except.ok Strategy.HiddenPairs
      | true, 3 => Except.ok Strategy.HiddenTriples
      | true, 4 => Except.ok Strategy.HiddenQuads
      | _, _ => Except.error PanicKind.unreachableCode := rfl

/-! ## Claim theorems -/

/-- C9: `strategy()` returns `NakedSingles` on every `NakedSingles` record,
`HiddenSingles` on every `HiddenSingles` record, and `LockedCandidates` on
every `LockedCandidates` record regardless of the `is_pointing` flag. -/
theorem singles_and_locked_strategy :
    ∀ (c : Candidate) (ht : HouseType) (digit miniline : Nat) (pointing : Bool)
      (conflicts : List Candidate),
      Deduction.strategy (Deduction.NakedSingles c) = Except.ok Strategy.NakedSingles
      ∧ Deduction.strategy (Deduction.HiddenSingles c ht) = Except.ok Strategy.HiddenSingles
      ∧ Deduction.strategy (Deduction.LockedCandidates digit miniline pointing conflicts) =
          Except.ok Strategy.LockedCandidates :=
  fun _ _ _ _ _ _ => ⟨rfl, rfl, rfl⟩

/-- C2: on a `BasicFish` record, `strategy()` returns XWing, Swordfish, or
Jellyfish exactly when `positions.len()` is 2, 3, or 4 respectively, and the
result does not depend on `digit`, `lines`, or `conflicts`. -/
theorem basic_fish_strategy_by_card (digit : Nat) (lines positions : Finset Nat)
    (conflicts : List Candidate) :
    (Deduction.strategy (Deduction.BasicFish digit lines positions conflicts) =
        Except.ok Strategy.XWing ↔ positions.card = 2)
    ∧ (Deduction.strategy (Deduction.BasicFish digit lines positions conflicts) =
        Except.ok Strategy.Swordfish ↔ positions.card = 3)
    ∧ (Deduction.strategy (Deduction.BasicFish digit lines positions conflicts) =
        Except.ok Strategy.Jellyfish ↔ positions.card = 4)
    ∧ ∀ (digit2 : Nat) (lines2 : Finset Nat) (conflicts2 : List Candidate),
        Deduction.strategy (Deduction.BasicFish digit lines positions conflicts) =
          Deduction.strategy (Deduction.BasicFish digit2 lines2 positions conflicts2) := by
  refine ⟨?_, ?_, ?_, ?_⟩
  · rcases h : positions.card with _ | _ | _ | _ | _ | n <;> simp [Deduction.strategy, h]
  · rcases h : positions.card with _ | _ | _ | _ | _ | n <;> simp [Deduction.strategy, h]
  · rcases h : positions.card with _ | _ | _ | _ | _ | n <;> simp [Deduction.strategy, h]
  · intro digit2 lines2 conflicts2
    rcases h : positions.card with _ | _ | _ | _ | _ | n <;> simp [Deduction.strategy, h]

/-- C1: on a `Subsets` record with non-empty conflicts and `positions.len()`
in {2,3,4}, `strategy()` projects the first conflict's cell to a row, column,
or block relative position according to `house`'s category, tests membership
in `positions`, and returns the hidden variant on overlap and the naked
variant otherwise, sized by `positions.len()`. -/
theorem subsets_strategy_classification
    (house : House) (positions digits : Finset Nat)
    (c : Candidate) (cs : List Candidate)
    (hcard : positions.card = 2 ∨ positions.card = 3 ∨ positions.card = 4) :
    Deduction.strategy (Deduction.Subsets house positions digits (c :: cs)) =
      Except.ok
        (if conflictPos house c.cell ∈ positions then
          if positions.card = 2 then Strategy.HiddenPairs
          else if positions.card = 3 then Strategy.HiddenTriples
          else Strategy.HiddenQuads
        else
          if positions.card = 2 then Strategy.NakedPairs
          else if positions.card = 3 then Strategy.NakedTriples
          else Strategy.NakedQuads) := by
  rw [strategy_subsets_cons]
  by_cases hm : conflictPos house c.cell ∈ positions
  · have hb : setOverlaps (posAsSet (conflictPos house c.cell)) positions = true :=
      (setOverlaps_posAsSet _ _).mpr hm
    rcases hcard with h | h | h <;> simp [hb, hm, h]
  · have hb : setOverlaps (posAsSet (conflictPos house c.cell)) positions = false := by
      rw [Bool.eq_false_iff]
      intro hc
      exact hm ((setOverlaps_posAsSet _ _).mp hc)
    rcases hcard with h | h | h <;> simp [hb, hm, h]

/-- Witness for C1: house 0 categorizes as a row; cell 0 has row position 0,
which lies in the positions set {0,1}, so the record is HiddenPairs. -/
theorem subsets_strategy_classification_witness :
    Deduction.strategy (Deduction.Subsets 0 ({0, 1} : Finset Nat) {1, 2} [⟨0, 1⟩]) =
      Except.ok Strategy.HiddenPairs := by
  have h := subsets_strategy_classification 0 {0, 1} {1, 2} ⟨0, 1⟩ [] (Or.inl (by decide))
  rw [h]
  decide

/-- C5 counterexample: a `Subsets` record whose conflicts slice is non-empty
but whose positions set has five elements still drives `strategy()` into the
`unreachable!` branch, so non-empty conflicts alone do not keep `strategy()`
from failing. -/
theorem subsets_nonempty_conflicts_can_still_panic :
    Deduction.strategy
        (Deduction.Subsets 0 ({0, 1, 2, 3, 4} : Finset Nat) {1, 2, 3, 4, 5} [⟨10, 1⟩]) =
      Except.error PanicKind.unreachableCode := by decide

/-- C5 amended: on a `Subsets` record with non-empty conflicts AND
`positions.len()` in {2,3,4}, the `conflicts[0]` indexing is in bounds and
`strategy()` succeeds; on a `Subsets` record with an empty conflicts slice the
indexing itself is the fatal failure, not a recoverable result. -/
theorem subsets_conflicts_precondition
    (house : House) (positions digits : Finset Nat) (conflicts : List Candidate)
    (hne : conflicts ≠ [])
    (hcard : positions.card = 2 ∨ positions.card = 3 ∨ positions.card = 4) :
    (∃ s, Deduction.strategy (Deduction.Subsets house positions digits conflicts) =
        Except.ok s)
    ∧ Deduction.strategy (Deduction.Subsets house positions digits []) =
        Except.error PanicKind.indexOutOfBounds := by
  refine ⟨?_, rfl⟩
  match conflicts, hne with
  | c :: cs, _ =>
    rw [strategy_subsets_cons]
    cases hb : setOverlaps (posAsSet (conflictPos house c.cell)) positions <;>
      rcases hcard with h | h | h <;> simp [h]

/-- Witness for C5 amended, on a concrete two-position record. -/
theorem subsets_conflicts_precondition_witness :
    (∃ s, Deduction.strategy (Deduction.Subsets 0 ({0, 1} : Finset Nat) {1, 2} [⟨0, 1⟩]) =
        Except.ok s)
    ∧ Deduction.strategy (Deduction.Subsets 0 ({0, 1} : Finset Nat) {1, 2} []) =
        Except.error PanicKind.indexOutOfBounds :=
  subsets_conflicts_precondition 0 {0, 1} {1, 2} [⟨0, 1⟩] (by decide) (Or.inl (by decide))

/-- C6: with `positions.len()` in {2,3,4} neither the `BasicFish` nor the
`Subsets` arm of `strategy()` reaches its `unreachable!` branch; with a
cardinality outside {2,3,4} the result is never one of the named strategy
tags. -/
theorem strategy_cardinality_contract
    (positions : Finset Nat)
    (hcard : positions.card = 2 ∨ positions.card = 3 ∨ positions.card = 4) :
    (∀ (digit : Nat) (lines : Finset Nat) (conflicts : List Candidate),
        Deduction.strategy (Deduction.BasicFish digit lines positions conflicts) ≠
          Except.error PanicKind.unreachableCode)
    ∧ (∀ (house : House) (digits : Finset Nat) (conflicts : List Candidate),
        Deduction.strategy (Deduction.Subsets house positions digits conflicts) ≠
          Except.error PanicKind.unreachableCode)
    ∧ ∀ (other : Finset Nat), other.card ≠ 2 → other.card ≠ 3 → other.card ≠ 4 →
        (∀ (digit : Nat) (lines : Finset Nat) (conflicts : List Candidate) (s : Strategy),
            Deduction.strategy (Deduction.BasicFish digit lines other conflicts) ≠
              Except.ok s)
        ∧ ∀ (house : House) (digits : Finset Nat) (conflicts : List Candidate) (s : Strategy),
            Deduction.strategy (Deduction.Subsets house other digits conflicts) ≠
              Except.ok s := by
  refine ⟨?_, ?_, ?_⟩
  · intro digit lines conflicts
    rcases hcard with h | h | h <;> simp [Deduction.strategy, h]
  · intro house digits conflicts
    cases conflicts with
    | nil => simp [Deduction.strategy]
    | cons c cs =>
      rw [strategy_subsets_cons]
      cases hb : setOverlaps (posAsSet (conflictPos house c.cell)) positions <;>
        rcases hcard with h | h | h <;> simp [h]
  · intro other h2 h3 h4
    constructor
    · intro digit lines conflicts s
      rcases hc : other.card with _ | _ | _ | _ | _ | n <;>
        first
        | exact absurd hc (by omega)
        | simp [Deduction.strategy, hc]
    · intro house digits conflicts s
      cases conflicts with
      | nil => simp [Deduction.strategy]
      | cons c cs =>
        rw [strategy_subsets_cons]
        cases hb : setOverlaps (posAsSet (conflictPos house c.cell)) other <;>
          rcases hc : other.card with _ | _ | _ | _ | _ | n <;>
            first
            | exact absurd hc (by omega)
            | simp

/-- Witness for C6 at a two-position fish record. -/
theorem strategy_cardinality_contract_witness :
    Deduction.strategy (Deduction.BasicFish 3 ({0, 1} : Finset Nat) {5, 6} []) ≠
      Except.error PanicKind.unreachableCode :=
  (strategy_cardinality_contract {5, 6} (Or.inl (by decide))).1 3 {0, 1} []

/-- C3: for every index `i` below `len()`, if the `i`-th stored record carries
an index range that is valid for `eliminated_entries`, then `get(i)`
materializes it and the `conflicts` field of the result is exactly the
contiguous slice `eliminated_entries[start..stop)`, in order. -/
theorem get_conflicts_slice
    (ld : Deductions) (i : Nat) (d : Deduction DeductionRange) (r : DeductionRange)
    (hd : ld.deductions[i]? = some d)
    (hr : d.conflictRange = some r)
    (hs : r.start ≤ r.stop) (hl : r.stop ≤ ld.eliminated_entries.length) :
    ∃ m, ld.get i = some (Except.ok m) ∧
      m.conflictsOf =
        some ((ld.eliminated_entries.drop r.start).take (r.stop - r.start)) := by
  cases d with
  | NakedSingles c => simp [Deduction.conflictRange] at hr
  | HiddenSingles c ht => simp [Deduction.conflictRange] at hr
  | __NonExhaustive => simp [Deduction.conflictRange] at hr
  | LockedCandidates digit miniline pointing rr =>
    simp only [Deduction.conflictRange, Option.some.injEq] at hr
    rw [hr] at hd
    refine ⟨Deduction.LockedCandidates digit miniline pointing
      ((ld.eliminated_entries.drop r.start).take (r.stop - r.start)), ?_, rfl⟩
    simp [Deductions.get, hd, Deduction.with_slices, sliceRange, hs, hl]
  | Subsets house positions digits rr =>
    simp only [Deduction.conflictRange, Option.some.injEq] at hr
    rw [hr] at hd
    refine ⟨Deduction.Subsets house positions digits
      ((ld.eliminated_entries.drop r.start).take (r.stop - r.start)), ?_, rfl⟩
    simp [Deductions.get, hd, Deduction.with_slices, sliceRange, hs, hl]
  | BasicFish digit lines positions rr =>
    simp only [Deduction.conflictRange, Option.some.injEq] at hr
    rw [hr] at hd
    refine ⟨Deduction.BasicFish digit lines positions
      ((ld.eliminated_entries.drop r.start).take (r.stop - r.start)), ?_, rfl⟩
    simp [Deductions.get, hd, Deduction.with_slices, sliceRange, hs, hl]

/-- Witness for C3 on a one-record ledger whose record names the slice
`[0, 1)` of a one-candidate buffer. -/
theorem get_conflicts_slice_witness :
    ∃ m, (Deductions.mk [Deduction.LockedCandidates 1 0 true ⟨0, 1⟩] [] [⟨3, 5⟩]).get 0 =
        some (Except.ok m)
      ∧ m.conflictsOf = some [⟨3, 5⟩] := by
  have h := get_conflicts_slice
    (Deductions.mk [Deduction.LockedCandidates 1 0 true ⟨0, 1⟩] [] [⟨3, 5⟩]) 0
    (Deduction.LockedCandidates 1 0 true ⟨0, 1⟩) ⟨0, 1⟩ rfl rfl (by decide) (by decide)
  simpa using h

/-- C4: `len()` counts the stored records, `get(index)` is `none` exactly when
`index` is at least `len()`, and on a well formed ledger every in-bounds index
materializes without a fatal failure. -/
theorem get_in_bounds (ld : Deductions) (i : Nat) :
    (ld.get i = none ↔ ld.len ≤ i)
    ∧ (ld.WellFormed → i < ld.len → ∃ m, ld.get i = some (Except.ok m)) := by
  constructor
  · rw [Deductions.get, Option.map_eq_none', List.getElem?_eq_none_iff]
    exact Iff.rfl
  · intro hwf hi
    have hlt : i < ld.deductions.length := hi
    obtain ⟨d, hd⟩ : ∃ d, ld.deductions[i]? = some d :=
      ⟨_, List.getElem?_eq_getElem hlt⟩
    have hmem : d ∈ ld.deductions := List.getElem?_mem hd
    obtain ⟨m, hm⟩ := with_slices_ok_of_rangeOk d ld.eliminated_entries (hwf d hmem)
    exact ⟨m, by simp [Deductions.get, hd, hm]⟩

/-- Witness for C4 on a one-record ledger: index 0 materializes, index 1 is
absent. -/
theorem get_in_bounds_witness :
    (∃ m, (Deductions.mk [Deduction.NakedSingles ⟨0, 5⟩] [] []).get 0 =
        some (Except.ok m))
    ∧ (Deductions.mk [Deduction.NakedSingles ⟨0, 5⟩] [] []).get 1 = none :=
  ⟨(get_in_bounds (Deductions.mk [Deduction.NakedSingles ⟨0, 5⟩] [] []) 0).2
      (by decide) (by decide),
    (get_in_bounds (Deductions.mk [Deduction.NakedSingles ⟨0, 5⟩] [] []) 1).1.mpr
      (by decide)⟩

/-- C7: running the iterator to exhaustion yields exactly `len()` items in
storage order, and for every index the `i`-th item equals `get(i)`: iteration
and indexed access are the same read path. -/
theorem iter_equals_get (ld : Deductions) :
    ld.iter.toList.length = ld.len ∧ ∀ i, ld.iter.toList[i]? = ld.get i := by
  have h : ld.iter.toList =
      ld.deductions.map (fun d => d.with_slices ld.eliminated_entries) := by
    rw [Deductions.iter, Iter.toList_eq_map]
  constructor
  · rw [h, List.length_map]
    rfl
  · intro i
    rw [h, List.getElem?_map]
    rfl

/-- C8: materialization is deterministic: two `get` calls at the same index on
an unchanged ledger give structurally equal records, and a fresh iterator pass
yields the same record at that position. -/
theorem materialization_deterministic
    (ld : Deductions) (i : Nat) (r₁ r₂ : Except PanicKind (Deduction (List Candidate)))
    (h₁ : ld.get i = some r₁) (h₂ : ld.get i = some r₂) :
    r₁ = r₂ ∧ ld.iter.toList[i]? = some r₁ := by
  have h12 : some r₁ = some r₂ := h₁.symm.trans h₂
  refine ⟨Option.some_injective _ h12, ?_⟩
  rw [Deductions.iter, Iter.toList_eq_map, List.getElem?_map]
  exact h₁

/-- Witness for C8 on a one-record ledger. -/
theorem materialization_deterministic_witness :
    (Except.ok (Deduction.NakedSingles ⟨0, 5⟩) :
        Except PanicKind (Deduction (List Candidate))) =
      Except.ok (Deduction.NakedSingles ⟨0, 5⟩)
    ∧ (Deductions.mk [Deduction.NakedSingles ⟨0, 5⟩] [] []).iter.toList[0]? =
        some (Except.ok (Deduction.NakedSingles ⟨0, 5⟩)) :=
  materialization_deterministic
    (Deductions.mk [Deduction.NakedSingles ⟨0, 5⟩] [] []) 0 _ _ rfl rfl

/-- C10: `with_slices` changes only the conflicts representation: every other
field — the candidate of `NakedSingles`, the candidate and house type of
`HiddenSingles`, digit, miniline and the pointing flag of `LockedCandidates`,
house, positions and digits of `Subsets`, digit, lines and positions of
`BasicFish` — is preserved unchanged, and the `__NonExhaustive` sentinel maps
to itself. -/
theorem with_slices_preserves_fields
    (el : List Candidate) (c : Candidate) (ht : HouseType)
    (digit miniline : Nat) (pointing : Bool) (r : DeductionRange)
    (house : House) (positions digits lines : Finset Nat) :
    Deduction.with_slices (Deduction.NakedSingles c) el =
        Except.ok (Deduction.NakedSingles c)
    ∧ Deduction.with_slices (Deduction.HiddenSingles c ht) el =
        Except.ok (Deduction.HiddenSingles c ht)
    ∧ (∀ m, Deduction.with_slices (Deduction.LockedCandidates digit miniline pointing r) el =
          Except.ok m →
        ∃ s, sliceRange el r = Except.ok s
          ∧ m = Deduction.LockedCandidates digit miniline pointing s)
    ∧ (∀ m, Deduction.with_slices (Deduction.Subsets house positions digits r) el =
          Except.ok m →
        ∃ s, sliceRange el r = Except.ok s
          ∧ m = Deduction.Subsets house positions digits s)
    ∧ (∀ m, Deduction.with_slices (Deduction.BasicFish digit lines positions r) el =
          Except.ok m →
        ∃ s, sliceRange el r = Except.ok s
          ∧ m = Deduction.BasicFish digit lines positions s)
    ∧ Deduction.with_slices Deduction.__NonExhaustive el =
        Except.ok (Deduction.__NonExhaustive : Deduction (List Candidate)) := by
  refine ⟨rfl, rfl, ?_, ?_, ?_, rfl⟩ <;>
    · intro m hm
      rw [Deduction.with_slices] at hm
      cases hq : sliceRange el r with
      | ok s =>
        rw [hq] at hm
        exact ⟨s, rfl, by injection hm with h; exact h.symm⟩
      | error e =>
        rw [hq] at hm
        cases hm

/-- Witness for C10: a concrete materialization of a `LockedCandidates` record
keeps digit, miniline and the pointing flag. -/
theorem with_slices_preserves_fields_witness :
    ∃ s, sliceRange [⟨7, 3⟩] ⟨0, 1⟩ = Except.ok s
      ∧ (Deduction.LockedCandidates 1 2 true [Candidate.mk 7 3] :
          Deduction (List Candidate)) = Deduction.LockedCandidates 1 2 true s :=
  (with_slices_preserves_fields [⟨7, 3⟩] ⟨0, 5⟩ (HouseType.Row 0) 1 2 true ⟨0, 1⟩
      0 {0} {0} {0}).2.2.1 (Deduction.LockedCandidates 1 2 true [⟨7, 3⟩]) (by decide)
